import Mathlib

/-!
Verification of the inventory reconciliation engine of `src/app.py`.

The development is a shallow embedding of the engine's components:
column resolver (`_find_column`), sheet joiner (`_extract_and_merge`),
snapshot aggregator (the merge / shelf-resolution / delta / decrease-rate
block), filter evaluator (the three filter blocks) and history ledger
(the dedup-append block).  Pandas tables are modelled as Lean lists of
records; a missing cell (`NaN`) is `Option.none`; machine floats used by
the decrease-rate computation are modelled by exact rationals `ℚ`.
-/

namespace InventoryApp

/-! ### Generic insertion sort

`pandas.sort_values` / sorted `groupby` keys are modelled by an insertion
sort.  Only permutation facts about it are needed: the program's final
orderings are total on the rows that occur, so any correct sort agrees. -/

def insertBy (le : α → α → Bool) (a : α) : List α → List α
  | [] => [a]
  | x :: xs => if le a x then a :: x :: xs else x :: insertBy le a xs

def sortBy (le : α → α → Bool) (l : List α) : List α :=
  l.foldr (insertBy le) []

theorem insertBy_perm (le : α → α → Bool) (a : α) :
    ∀ l : List α, (insertBy le a l).Perm (a :: l)
  | [] => List.Perm.refl _
  | x :: xs => by
    simp only [insertBy]
    cases h : le a x with
    | true => exact List.Perm.refl _
    | false =>
      exact ((insertBy_perm le a xs).cons x).trans (List.Perm.swap a x xs)

theorem sortBy_perm (le : α → α → Bool) :
    ∀ l : List α, (sortBy le l).Perm l
  | [] => List.Perm.refl _
  | x :: xs =>
    (insertBy_perm le x (sortBy le xs)).trans ((sortBy_perm le xs).cons x)

theorem mem_sortBy {le : α → α → Bool} {a : α} {l : List α} :
    a ∈ sortBy le l ↔ a ∈ l :=
  (sortBy_perm le l).mem_iff

/-! ### Column Resolver (`_find_column`)

`lower_map = {c.strip().lower(): c for c in columns}` is a Python dict
comprehension: a later column overwrites an earlier one with the same
normalised key.  The dict is modelled as an association list built by
prepending, looked up by first match, so later insertions shadow earlier
ones exactly as in the dict. -/

/-- Python `str.lower()`, as a character-list map (ASCII case folding;
the program's aliases and sentinels are case-stable under it). -/
def toLowerStr (s : String) : String := ⟨s.data.map Char.toLower⟩

def normKey (s : String) : String := toLowerStr s.trim

def lowerMap (columns : List String) : List (String × String) :=
  columns.foldl (fun m c => (normKey c, c) :: m) []

def lookupCol (m : List (String × String)) (k : String) : Option String :=
  (m.find? (fun p => p.1 == k)).map (fun p => p.2)

def findColumn (columns : List String) (candidates : List String) : Option String :=
  candidates.findSome? (fun cand => lookupCol (lowerMap columns) (toLowerStr cand))

theorem lowerMap_foldl (columns : List String) (acc : List (String × String)) :
    columns.foldl (fun m c => (normKey c, c) :: m) acc
      = (columns.map (fun c => (normKey c, c))).reverse ++ acc := by
  induction columns generalizing acc with
  | nil => rfl
  | cons c cs ih =>
    simp [List.foldl_cons, ih ((normKey c, c) :: acc)]

theorem getLast?_cons_or (a : α) (l : List α) :
    (a :: l).getLast? = (l.getLast?.or (some a)) := by
  induction l generalizing a with
  | nil => rfl
  | cons x xs ih =>
    rw [List.getLast?_cons_cons, ih x]
    cases h : xs.getLast? <;> rfl

theorem find?_reverse_map (l : List α) (f : α → β) (p : β → Bool) :
    ((l.map f).reverse.find? p) = ((l.filter (fun a => p (f a))).getLast?).map f := by
  induction l with
  | nil => rfl
  | cons a as ih =>
    rw [List.map_cons, List.reverse_cons, List.find?_append, ih, List.filter_cons]
    cases h : p (f a) <;>
      cases hl : (as.filter (fun a => p (f a))).getLast? <;>
        simp [h, hl, getLast?_cons_or, List.find?, Option.or]

theorem lookupCol_lowerMap (columns : List String) (k : String) :
    lookupCol (lowerMap columns) k
      = (columns.filter (fun c => normKey c == k)).getLast? := by
  unfold lookupCol lowerMap
  rw [lowerMap_foldl columns [], List.append_nil,
      find?_reverse_map columns (fun c => (normKey c, c)) (fun p => p.1 == k)]
  rw [Option.map_map]
  exact Option.map_id'

/-- C10: in `_find_column`, when several headers normalise (trim + lowercase)
to the same string, a matching alias resolves to the LAST such column in the
table's column order: the resolver equals, alias by alias, the last column
whose normalised name matches the alias's lowercasing. -/
theorem C10_alias_resolves_last_column (columns candidates : List String) :
    findColumn columns candidates
      = candidates.findSome?
          (fun cand => (columns.filter (fun c => normKey c == toLowerStr cand)).getLast?) := by
  unfold findColumn
  congr 1
  funext cand
  exact lookupCol_lowerMap columns (toLowerStr cand)

/-! ### Sheet Joiner (`_extract_and_merge`)

Sheets are modelled after column resolution: a quantity-sheet row carries
the key cell, the quantity cell and the optional shelf cell; a master-sheet
row carries key, product name and optional shelf.  `none` is a pandas `NaN`
(missing cell, or the whole column being absent from the sheet).  The
quantity cell is the result of `pd.to_numeric(..., errors="coerce")`:
`none` when the cell was missing or non-numeric, otherwise the (possibly
negative) integer value. -/

structure MainRow where
  jan : Option String
  qty : Option Int
  shelf : Option String
deriving DecidableEq, Repr

structure MasterRow where
  jan : Option String
  pname : Option String
  shelf : Option String
deriving DecidableEq, Repr

structure MainClean where
  jan : String
  qty : Int
  shelf : Option String
deriving DecidableEq, Repr

structure MasterClean where
  jan : String
  pname : String
  shelf : Option String
deriving DecidableEq, Repr

/-- `pd.to_numeric(...).fillna(0).astype(int)`: a missing or non-numeric
quantity becomes 0; numeric values (negative ones included) pass through. -/
def coerceQty (o : Option Int) : Int := o.getD 0

/-- Quantity-sheet cleaning: coerce the quantity column, then
`dropna(subset=["JANコード"])` — only rows whose key cell is missing are
dropped. -/
def mainClean (rows : List MainRow) : List MainClean :=
  rows.filterMap fun r => r.jan.map fun j => ⟨j, coerceQty r.qty, r.shelf⟩

/-- Master-sheet cleaning: `dropna(subset=["JANコード", "商品名"])`. -/
def masterClean (rows : List MasterRow) : List MasterClean :=
  rows.filterMap fun r =>
    match r.jan, r.pname with
    | some j, some n => some ⟨j, n, r.shelf⟩
    | _, _ => none

/-- `drop_duplicates(subset=["JANコード"], keep="first")`: a row is kept
iff its key has not occurred on an earlier row. -/
def dedupByJanAux (seen : List String) : List MasterClean → List MasterClean
  | [] => []
  | r :: rs =>
    if r.jan ∈ seen then dedupByJanAux seen rs
    else r :: dedupByJanAux (r.jan :: seen) rs

def dedupByJan (rows : List MasterClean) : List MasterClean :=
  dedupByJanAux [] rows

structure MergedRow where
  jan : String
  pname : String
  qty : Int
  shelf : String
deriving DecidableEq, Repr

def sentinelName : String := "（不明：マスター未登録）"

/-- The left join on the key (the master side made key-unique beforehand, so
the unique match is the first cleaned master row with that key), the
`combine_first` shelf resolution (quantity sheet preferred, then master,
then `"-"`), and the product-name fill for unmatched keys. -/
def mergeRows (main : List MainRow) (master : List MasterRow) : List MergedRow :=
  (mainClean main).map fun m =>
    let mm := (dedupByJan (masterClean master)).find? (fun r => r.jan == m.jan)
    { jan := m.jan
      pname := (mm.map (fun r => r.pname)).getD sentinelName
      qty := m.qty
      shelf := ((m.shelf.or (mm.bind (fun r => r.shelf))).getD "-") }

structure CanonicalRow where
  pname : String
  qty : Int
  shelf : String
deriving DecidableEq, Repr

/-- The group keys of `groupby("商品名", as_index=False)`: the distinct
product names, sorted (pandas sorts group keys). -/
def groupNames (rows : List MergedRow) : List String :=
  sortBy (fun a b => decide (a ≤ b)) (rows.map (fun r => r.pname)).dedup

/-- One output row of the `groupby` aggregation: quantities are summed,
the shelf is the FIRST value of the group in row order (`"first"`),
sentinel or not. -/
def canonOf (rows : List MergedRow) (n : String) : CanonicalRow :=
  let grp := rows.filter (fun r => r.pname == n)
  ⟨n, (grp.map (fun r => r.qty)).sum, ((grp.map (fun r => r.shelf)).head?).getD "-"⟩

def extractAndMerge (main : List MainRow) (master : List MasterRow) : List CanonicalRow :=
  (groupNames (mergeRows main master)).map (canonOf (mergeRows main master))

theorem mem_extractAndMerge {main : List MainRow} {master : List MasterRow}
    {c : CanonicalRow} (hc : c ∈ extractAndMerge main master) :
    ∃ n ∈ groupNames (mergeRows main master), c = canonOf (mergeRows main master) n := by
  unfold extractAndMerge at hc
  rcases List.mem_map.mp hc with ⟨n, hn, rfl⟩
  exact ⟨n, hn, rfl⟩

theorem mainClean_mem {main : List MainRow} {c : MainClean} (hc : c ∈ mainClean main) :
    ∃ m ∈ main, m.jan = some c.jan ∧ c.qty = coerceQty m.qty := by
  unfold mainClean at hc
  rcases List.mem_filterMap.mp hc with ⟨m, hm, hf⟩
  cases h : m.jan with
  | none => rw [h] at hf; cases hf
  | some j =>
    rw [h] at hf
    cases hf
    exact ⟨m, hm, by rw [h], rfl⟩

theorem extractAndMerge_names (main : List MainRow) (master : List MasterRow) :
    (extractAndMerge main master).map (fun c => c.pname)
      = groupNames (mergeRows main master) := by
  unfold extractAndMerge
  rw [List.map_map]
  have h : ((fun c : CanonicalRow => c.pname) ∘ canonOf (mergeRows main master))
      = fun n => n := rfl
  rw [h]
  exact List.map_id' _

/-- C4, amended: after the left join, rows are grouped by resolved product
name; each group's quantity is the sum of its rows' quantities, there is
exactly one output row per distinct product name, but the group's location
is the location of the FIRST row of the group in join order — sentinel or
not — rather than the first non-sentinel location. -/
theorem C4_groupby_sum_first_shelf (main : List MainRow) (master : List MasterRow) :
    ((extractAndMerge main master).map (fun c => c.pname)).Nodup ∧
    (∀ n : String, n ∈ (extractAndMerge main master).map (fun c => c.pname) ↔
        n ∈ (mergeRows main master).map (fun r => r.pname)) ∧
    (∀ c ∈ extractAndMerge main master,
      c.qty = (((mergeRows main master).filter (fun r => r.pname == c.pname)).map
          (fun r => r.qty)).sum ∧
      c.shelf = ((((mergeRows main master).filter (fun r => r.pname == c.pname)).map
          (fun r => r.shelf)).head?).getD "-") := by
  refine ⟨?_, ?_, ?_⟩
  · rw [extractAndMerge_names]
    unfold groupNames
    exact ((sortBy_perm _ _).nodup_iff).mpr (List.nodup_dedup _)
  · intro n
    rw [extractAndMerge_names]
    unfold groupNames
    rw [mem_sortBy, List.mem_dedup]
  · intro c hc
    obtain ⟨n, hn, rfl⟩ := mem_extractAndMerge hc
    exact ⟨rfl, rfl⟩

def exC4main : List MainRow :=
  [⟨some "a", some 1, none⟩, ⟨some "b", some 2, some "B2"⟩]

def exC4master : List MasterRow :=
  [⟨some "a", some "P", none⟩, ⟨some "b", some "P", none⟩]

/-- C4, counterexample: two joined rows share product name "P"; the first
has the sentinel location "-" and the second has "B2".  The group's
location is "-" (first row), not the first non-sentinel value "B2"
claimed. -/
theorem C4_counterexample :
    extractAndMerge exC4main exC4master = [⟨"P", 3, "-"⟩] ∧
    ((mergeRows exC4main exC4master).map (fun r => r.shelf)).filter
        (fun s => s != "-") = ["B2"] := by
  exact ⟨by decide, by decide⟩

theorem C4_groupby_sum_first_shelf_witness :
    (⟨"P", 3, "-"⟩ : CanonicalRow).qty
        = (((mergeRows exC4main exC4master).filter
            (fun r => r.pname == (⟨"P", 3, "-"⟩ : CanonicalRow).pname)).map
            (fun r => r.qty)).sum ∧
    (⟨"P", 3, "-"⟩ : CanonicalRow).shelf
        = ((((mergeRows exC4main exC4master).filter
            (fun r => r.pname == (⟨"P", 3, "-"⟩ : CanonicalRow).pname)).map
            (fun r => r.shelf)).head?).getD "-" :=
  (C4_groupby_sum_first_shelf exC4main exC4master).2.2 ⟨"P", 3, "-"⟩ (by decide)

/-- C5, amended: every quantity-sheet row whose key is MISSING is dropped
before the join (the retained rows are exactly those with a present key),
but a row whose key is the empty string is retained and participates in
the join. -/
theorem C5_missing_key_rows_dropped (main : List MainRow) :
    (mainClean main).length = main.countP (fun r => r.jan.isSome) ∧
    ∀ c ∈ mainClean main, ∃ m ∈ main, m.jan = some c.jan ∧ c.qty = coerceQty m.qty := by
  constructor
  · induction main with
    | nil => rfl
    | cons r rs ih =>
      unfold mainClean at ih ⊢
      cases h : r.jan <;> simp [List.filterMap_cons, h, List.countP_cons, ih]
  · exact fun c hc => mainClean_mem hc

def exC5main : List MainRow := [⟨some "", some 5, none⟩]

/-- C5, counterexample: a quantity-sheet row whose key cell holds the empty
string is not dropped — it survives cleaning and produces an output row. -/
theorem C5_counterexample :
    (mainClean exC5main).map (fun r => r.jan) = [""] ∧
    extractAndMerge exC5main [] = [⟨sentinelName, 5, "-"⟩] := by
  exact ⟨by decide, by decide⟩

theorem C5_missing_key_rows_dropped_witness :
    ∃ m ∈ exC5main, m.jan = some "" ∧ (5 : Int) = coerceQty m.qty :=
  (C5_missing_key_rows_dropped exC5main).2 ⟨"", 5, none⟩ (by decide)

/-- C9, amended: a canonical row's quantity is an integer obtained by
summing coerced cell values (missing / non-numeric cells count 0); it is
nonnegative whenever every quantity cell coerces to a nonnegative value,
but a negative numeric cell propagates to a negative canonical quantity. -/
theorem C9_qty_nonneg_of_nonneg_cells (main : List MainRow) (master : List MasterRow)
    (h : ∀ m ∈ main, 0 ≤ coerceQty m.qty) :
    ∀ c ∈ extractAndMerge main master, 0 ≤ c.qty := by
  intro c hc
  obtain ⟨n, hn, rfl⟩ := mem_extractAndMerge hc
  apply List.sum_nonneg
  intro x hx
  rcases List.mem_map.mp hx with ⟨r, hr, rfl⟩
  have hr' : r ∈ mergeRows main master := List.mem_of_mem_filter hr
  unfold mergeRows at hr'
  rcases List.mem_map.mp hr' with ⟨m, hm, rfl⟩
  obtain ⟨m₀, hm₀, hjan, hq⟩ := mainClean_mem hm
  show 0 ≤ m.qty
  rw [hq]
  exact h m₀ hm₀

def exC9main : List MainRow := [⟨some "k", some (-5), none⟩]

/-- C9, counterexample: a quantity cell holding −5 yields a canonical row
with quantity −5, violating the claimed `quantity ≥ 0` invariant. -/
theorem C9_counterexample :
    (extractAndMerge exC9main []).map (fun c => c.qty) = [-5] ∧
    ¬ (∀ c ∈ extractAndMerge exC9main [], 0 ≤ c.qty) := by
  exact ⟨by decide, by decide⟩

def exC9nonneg : List MainRow := [⟨some "k", some 2, none⟩, ⟨some "j", none, none⟩]

theorem C9_qty_nonneg_witness : (0 : Int) ≤ (⟨sentinelName, 2, "-"⟩ : CanonicalRow).qty :=
  C9_qty_nonneg_of_nonneg_cells exC9nonneg [] (by decide)
    ⟨sentinelName, 2, "-"⟩ (by decide)

/-! ### Snapshot Aggregator

The merge block of the main script: union outer-merge of the per-snapshot
canonical tables on product name, shelf resolution through the
`shelf_mapping` dict, the `_is_new` flag, `fillna(0)`, delta, display
decrease rate (`_calc_decrease_rate`) and raw decrease rate
(`_calc_decrease_val`), final sort by (shelf, name).

The Python dict `shelf_mapping` is modelled as an association list to
which each accepted assignment is PREPENDED, looked up by first match, so
a later assignment shadows an earlier one exactly as in the dict.
Python floats are modelled by exact rationals. -/

def shelfOk (s : String) : Bool := s != "-" && toLowerStr s != "nan"

def updShelf (m : List (String × String)) (r : CanonicalRow) : List (String × String) :=
  if shelfOk r.shelf then (r.pname, r.shelf) :: m else m

def shelfMapping (snaps : List (List CanonicalRow)) : List (String × String) :=
  snaps.foldl (fun m snap => snap.foldl updShelf m) []

def lookAux (m : List (String × String)) (n : String) : Option String :=
  (m.find? (fun p => p.1 == n)).map (fun p => p.2)

/-- `shelf_mapping.get(name, "-")`. -/
def lookupShelf (m : List (String × String)) (n : String) : String :=
  (lookAux m n).getD "-"

/-- The quantity cell of product `n` in one snapshot's canonical table:
`none` when the product is absent (pandas `NaN` after the outer merge). -/
def snapQty (snap : List CanonicalRow) (n : String) : Option Int :=
  (snap.find? (fun r => r.pname == n)).map (fun r => r.qty)

structure AggRow where
  pname : String
  shelf : String
  qtys : List Int
  isNew : Bool
  delta : Int
  rateDisp : Option ℚ
  rateVal : ℚ
deriving DecidableEq, Repr

/-- One row of the merged table, for product `n`:
`_is_new` is absence from the oldest snapshot (`isna` before `fillna`);
quantities are `fillna(0)`; `delta = newest - oldest`;
`rateDisp` models `_calc_decrease_rate` (`none` = the "-" sentinel,
shown when oldest ≤ 10); `rateVal` models `_calc_decrease_val`
(0.0 when oldest ≤ 0, else `(oldest - newest) / oldest * 100`). -/
def aggRow (snaps : List (List CanonicalRow)) (n : String) : AggRow :=
  let oldest := snaps.head?.getD []
  let newest := snaps.getLast?.getD []
  let prevOpt := snapQty oldest n
  let prev : Int := prevOpt.getD 0
  let curr : Int := (snapQty newest n).getD 0
  { pname := n
    shelf := lookupShelf (shelfMapping snaps) n
    qtys := snaps.map (fun s => (snapQty s n).getD 0)
    isNew := prevOpt.isNone
    delta := curr - prev
    rateDisp :=
      if prev ≤ 10 then none
      else some (((prev : ℚ) - (curr : ℚ)) / (prev : ℚ) * 100)
    rateVal :=
      if prev ≤ 0 then 0
      else ((prev : ℚ) - (curr : ℚ)) / (prev : ℚ) * 100 }

/-- The union of product names across snapshots.  Successive outer merges
on a unique key yield each name once; the final table is sorted by
(shelf, name), a total order on distinct names, so the pre-sort union
order is irrelevant and any duplicate-free union is faithful. -/
def unionNames (snaps : List (List CanonicalRow)) : List String :=
  (snaps.flatMap (fun s => s.map (fun r => r.pname))).dedup

/-- `sort_values(["棚番", "商品名"])`. -/
def leAgg (a b : AggRow) : Bool :=
  decide (a.shelf < b.shelf) || (a.shelf == b.shelf && decide (a.pname ≤ b.pname))

def aggregate (snaps : List (List CanonicalRow)) : List AggRow :=
  sortBy leAgg ((unionNames snaps).map (aggRow snaps))

theorem mem_aggregate {snaps : List (List CanonicalRow)} {r : AggRow}
    (hr : r ∈ aggregate snaps) : ∃ n ∈ unionNames snaps, r = aggRow snaps n := by
  unfold aggregate at hr
  rcases List.mem_map.mp (mem_sortBy.mp hr) with ⟨n, hn, rfl⟩
  exact ⟨n, hn, rfl⟩

theorem aggRow_mem_aggregate {snaps : List (List CanonicalRow)} {n : String}
    (hn : n ∈ unionNames snaps) : aggRow snaps n ∈ aggregate snaps := by
  unfold aggregate
  exact mem_sortBy.mpr (List.mem_map_of_mem _ hn)

/-! ### Filter Evaluator -/

def oldestQty (r : AggRow) : Int := (r.qtys.head?).getD 0

def newestQty (r : AggRow) : Int := (r.qtys.getLast?).getD 0

/-- Substring test on character lists (Python `in` / `str.contains`,
regex metacharacters aside). -/
def subChars (needle : List Char) : List Char → Bool
  | [] => needle.isEmpty
  | c :: cs => needle.isPrefixOf (c :: cs) || subChars needle cs

def containsCI (hay q : String) : Bool :=
  subChars (toLowerStr q).toList (toLowerStr hay).toList

/-- The search box: an empty query is falsy in Python and skips the
filter; otherwise case-insensitive substring match on product name OR
shelf. -/
def textPred (q : String) (r : AggRow) : Bool :=
  if q = "" then true else containsCI r.pname q || containsCI r.shelf q

inductive QtyFilter
  | noFilter | restock | newProd | outOfStock | few | tens | twenties | thirties | fortyUp
deriving DecidableEq, Repr

/-- The quantity-bucket filter block, evaluated against the newest
snapshot's column (`latest_stock`) and the oldest column. -/
def qtyPred (f : QtyFilter) (r : AggRow) : Bool :=
  match f with
  | .noFilter => true
  | .restock => decide (oldestQty r = 0) && decide (1 ≤ newestQty r) && !r.isNew
  | .newProd => r.isNew && decide (1 ≤ newestQty r)
  | .outOfStock => decide (newestQty r = 0)
  | .few => decide (1 ≤ newestQty r) && decide (newestQty r ≤ 9)
  | .tens => decide (10 ≤ newestQty r) && decide (newestQty r ≤ 19)
  | .twenties => decide (20 ≤ newestQty r) && decide (newestQty r ≤ 29)
  | .thirties => decide (30 ≤ newestQty r) && decide (newestQty r ≤ 39)
  | .fortyUp => decide (40 ≤ newestQty r)

inductive RateFilter
  | noFilter | ge10 | ge20 | ge30 | ge40 | ge50 | ge75
deriving DecidableEq, Repr

/-- The decrease-rate filter block: compares the raw internal value
`_decrease_rate_val` against the chosen threshold. -/
def ratePred (f : RateFilter) (r : AggRow) : Bool :=
  match f with
  | .noFilter => true
  | .ge10 => decide ((10 : ℚ) ≤ r.rateVal)
  | .ge20 => decide ((20 : ℚ) ≤ r.rateVal)
  | .ge30 => decide ((30 : ℚ) ≤ r.rateVal)
  | .ge40 => decide ((40 : ℚ) ≤ r.rateVal)
  | .ge50 => decide ((50 : ℚ) ≤ r.rateVal)
  | .ge75 => decide ((75 : ℚ) ≤ r.rateVal)

/-- The filter application block: text search, then quantity bucket, then
decrease-rate threshold, each a boolean-mask row filter. -/
def applyFilters (q : String) (f : QtyFilter) (d : RateFilter)
    (rows : List AggRow) : List AggRow :=
  ((rows.filter (textPred q)).filter (qtyPred f)).filter (ratePred d)

/-! ### History Ledger

The dedup-append block: the identity key is the ordered tuple of uploaded
file names; an entry is appended only when no stored entry has the same
key.  The wall-clock timestamp and the counts stored alongside are
presentation data and are omitted. -/

structure HistoryEntry where
  key : List String
  table : List AggRow
deriving DecidableEq, Repr

def record (hist : List HistoryEntry) (e : HistoryEntry) : List HistoryEntry :=
  if hist.any (fun h => h.key == e.key) then hist else hist ++ [e]

/-! ### Shelf resolution (claim C2) -/

/-- The location rule as the spec words it for claim C2: the FIRST
non-sentinel, non-missing location found scanning snapshots oldest
first, the sentinel `"-"` when none. -/
def firstShelfSpec (snaps : List (List CanonicalRow)) (n : String) : String :=
  (((((snaps.flatMap id).filter (fun r => r.pname == n && shelfOk r.shelf))).head?).map
    (fun r => r.shelf)).getD "-"

/-- The amended location rule: the LAST non-sentinel, non-missing location
found scanning snapshots oldest first (the most recent valid value wins),
the sentinel `"-"` when none. -/
def lastShelfSpec (snaps : List (List CanonicalRow)) (n : String) : String :=
  (((((snaps.flatMap id).filter (fun r => r.pname == n && shelfOk r.shelf))).getLast?).map
    (fun r => r.shelf)).getD "-"

theorem shelfMapping_flat (snaps : List (List CanonicalRow)) :
    shelfMapping snaps = (snaps.flatMap id).foldl updShelf [] := by
  unfold shelfMapping
  suffices h : ∀ (ss : List (List CanonicalRow)) (m : List (String × String)),
      ss.foldl (fun m snap => snap.foldl updShelf m) m = (ss.flatMap id).foldl updShelf m by
    exact h snaps []
  intro ss
  induction ss with
  | nil => intro m; rfl
  | cons s ts ih =>
    intro m
    rw [List.foldl_cons, ih, List.flatMap_cons, List.foldl_append]
    rfl

theorem lookAux_foldl (rows : List CanonicalRow) (m : List (String × String)) (n : String) :
    lookAux (rows.foldl updShelf m) n
      = (((rows.filter (fun r => r.pname == n && shelfOk r.shelf)).getLast?).map
          (fun r => r.shelf)).or (lookAux m n) := by
  induction rows generalizing m with
  | nil => rfl
  | cons r rs ih =>
    rw [List.foldl_cons, ih, List.filter_cons]
    cases hok : shelfOk r.shelf with
    | false =>
      have hm : updShelf m r = m := by unfold updShelf; rw [if_neg (by simp [hok])]
      rw [hm]
      cases hpn : r.pname == n <;> simp
    | true =>
      have hm : updShelf m r = (r.pname, r.shelf) :: m := by
        unfold updShelf; rw [if_pos (by simp [hok])]
      rw [hm]
      cases hpn : r.pname == n with
      | false =>
        have : lookAux ((r.pname, r.shelf) :: m) n = lookAux m n := by
          unfold lookAux
          rw [List.find?_cons_of_neg _ (by simp [hpn])]
        simp [this]
      | true =>
        have : lookAux ((r.pname, r.shelf) :: m) n = some r.shelf := by
          unfold lookAux
          rw [List.find?_cons_of_pos _ (by simp [hpn])]
          rfl
        rw [this]
        simp only [Bool.true_and, if_pos]
        rw [getLast?_cons_or, Option.map_or', Option.or_assoc]
        rfl

/-- C2, amended: for every product in the aggregated table, the resolved
location is the LAST non-sentinel, non-missing location value found
scanning the snapshots oldest first (a later snapshot's valid location
overwrites an earlier one), and `"-"` when no snapshot provides one. -/
theorem C2_last_shelf_wins (snaps : List (List CanonicalRow)) (r : AggRow)
    (hr : r ∈ aggregate snaps) : r.shelf = lastShelfSpec snaps r.pname := by
  obtain ⟨n, hn, rfl⟩ := mem_aggregate hr
  show lookupShelf (shelfMapping snaps) n = lastShelfSpec snaps n
  rw [shelfMapping_flat]
  unfold lookupShelf lastShelfSpec
  rw [lookAux_foldl]
  rw [show lookAux [] n = none from rfl, Option.or_none]

def exC2 : List (List CanonicalRow) := [[⟨"A", 5, "X"⟩], [⟨"A", 3, "Y"⟩]]

/-- C2, counterexample: product "A" has location "X" in the oldest
snapshot and "Y" in the newest; the aggregated table shows "Y" (last
snapshot wins), not the first value "X" the claim requires. -/
theorem C2_counterexample :
    (aggregate exC2).map (fun r => r.shelf) = ["Y"] ∧
    firstShelfSpec exC2 "A" = "X" ∧ ("Y" : String) ≠ "X" := by
  exact ⟨by decide, by decide, by decide⟩

def exC2w : List (List CanonicalRow) := [[⟨"A", 5, "X"⟩], [⟨"A", 3, "-"⟩]]

theorem C2_last_shelf_wins_witness :
    (aggRow exC2w "A").shelf = lastShelfSpec exC2w (aggRow exC2w "A").pname :=
  C2_last_shelf_wins exC2w (aggRow exC2w "A") (aggRow_mem_aggregate (by decide))

/-! ### Delta and classification (claims C6, C3) -/

theorem oldestQty_aggRow (snaps : List (List CanonicalRow)) (n : String) :
    oldestQty (aggRow snaps n) = (snapQty (snaps.head?.getD []) n).getD 0 := by
  unfold oldestQty aggRow
  simp only [List.head?_map]
  cases snaps with
  | nil => rfl
  | cons s ss => rfl

theorem newestQty_aggRow (snaps : List (List CanonicalRow)) (n : String) :
    newestQty (aggRow snaps n) = (snapQty (snaps.getLast?.getD []) n).getD 0 := by
  unfold newestQty aggRow
  simp only [List.getLast?_map]
  cases hl : snaps.getLast? with
  | none => rfl
  | some s => rfl

/-- C6: for every row of the aggregated table, delta is the newest
snapshot's quantity minus the oldest snapshot's quantity, as a signed
integer, a product absent from a snapshot (`snapQty` = `none`)
contributing 0 to that column. -/
theorem C6_delta_newest_minus_oldest (snaps : List (List CanonicalRow)) (r : AggRow)
    (hr : r ∈ aggregate snaps) :
    r.delta = (snapQty (snaps.getLast?.getD []) r.pname).getD 0
            - (snapQty (snaps.head?.getD []) r.pname).getD 0 := by
  obtain ⟨n, hn, rfl⟩ := mem_aggregate hr
  rfl

def exC6 : List (List CanonicalRow) :=
  [[⟨"A", 5, "-"⟩], [⟨"A", 3, "-"⟩, ⟨"C", 7, "-"⟩]]

theorem C6_delta_witness :
    (aggRow exC6 "C").delta
      = (snapQty (exC6.getLast?.getD []) (aggRow exC6 "C").pname).getD 0
      - (snapQty (exC6.head?.getD []) (aggRow exC6 "C").pname).getD 0 :=
  C6_delta_newest_minus_oldest exC6 (aggRow exC6 "C")
    (aggRow_mem_aggregate (by decide))

/-- C3: a product absent from the oldest snapshot with newest quantity ≥ 1
has `isNew = true`, passes the "new product" filter and fails the
"restocked" filter; a product present in every snapshot with oldest
quantity exactly 0 and newest quantity ≥ 1 passes "restocked" and fails
"new product". -/
theorem C3_new_vs_restock (snaps : List (List CanonicalRow)) (r : AggRow)
    (hr : r ∈ aggregate snaps) :
    (snapQty (snaps.head?.getD []) r.pname = none → 1 ≤ newestQty r →
      r.isNew = true ∧ qtyPred .newProd r = true ∧ qtyPred .restock r = false) ∧
    ((∀ s ∈ snaps, (snapQty s r.pname).isSome) →
      snapQty (snaps.head?.getD []) r.pname = some 0 → 1 ≤ newestQty r →
      qtyPred .restock r = true ∧ qtyPred .newProd r = false) := by
  obtain ⟨n, hn, rfl⟩ := mem_aggregate hr
  constructor
  · intro h1 h2
    have h1' : snapQty (snaps.head?.getD []) n = none := h1
    have hNew : (aggRow snaps n).isNew = true := by
      show (snapQty (snaps.head?.getD []) n).isNone = true
      rw [h1']
      rfl
    refine ⟨hNew, ?_, ?_⟩
    · simp only [qtyPred]
      rw [hNew]
      simp [h2]
    · simp only [qtyPred]
      rw [hNew]
      simp
  · intro hall h0 h2
    have h0' : snapQty (snaps.head?.getD []) n = some 0 := h0
    have hNew : (aggRow snaps n).isNew = false := by
      show (snapQty (snaps.head?.getD []) n).isNone = false
      rw [h0']
      rfl
    have hOld : oldestQty (aggRow snaps n) = 0 := by
      rw [oldestQty_aggRow, h0']
      rfl
    constructor
    · simp only [qtyPred]
      rw [hNew, hOld]
      simp [h2]
    · simp only [qtyPred]
      rw [hNew]
      simp

def exC3 : List (List CanonicalRow) :=
  [[⟨"B", 0, "-"⟩], [⟨"B", 2, "-"⟩, ⟨"C", 7, "-"⟩]]

theorem C3_new_vs_restock_witness :
    ((aggRow exC3 "C").isNew = true ∧ qtyPred .newProd (aggRow exC3 "C") = true ∧
      qtyPred .restock (aggRow exC3 "C") = false) ∧
    (qtyPred .restock (aggRow exC3 "B") = true ∧ qtyPred .newProd (aggRow exC3 "B") = false) :=
  ⟨(C3_new_vs_restock exC3 (aggRow exC3 "C")
      (aggRow_mem_aggregate (by decide))).1 (by decide) (by decide),
   (C3_new_vs_restock exC3 (aggRow exC3 "B")
      (aggRow_mem_aggregate (by decide))).2 (by decide) (by decide) (by decide)⟩

/-! ### Decrease rate (claim C1) -/

def exC1 : List (List CanonicalRow) := [[⟨"A", 10, "-"⟩], [⟨"A", 0, "-"⟩]]

/-- C1, counterexample: with oldest quantity 10 and newest 0 the displayed
rate is the sentinel (oldest ≤ 10), yet the internally retained raw rate
is 100.0, not 0.0, and the row passes the ≥75% threshold filter (hence
every weaker positive threshold as well). -/
theorem C1_counterexample :
    (aggregate exC1).map (fun r => r.rateDisp) = [none] ∧
    (aggregate exC1).map (fun r => r.rateVal) = [100] ∧
    applyFilters "" QtyFilter.noFilter RateFilter.ge75 (aggregate exC1) = aggregate exC1 ∧
    aggregate exC1 ≠ [] := by
  have hagg : aggregate exC1 = [aggRow exC1 "A"] := rfl
  have hval : (aggRow exC1 "A").rateVal = 100 := by
    rw [show (aggRow exC1 "A").rateVal = ((10:ℚ) - (0:ℚ)) / (10:ℚ) * 100 from rfl]
    norm_num
  have hrp : ratePred RateFilter.ge75 (aggRow exC1 "A") = true := by
    simp only [ratePred]
    rw [hval]
    norm_num
  refine ⟨rfl, ?_, ?_, ?_⟩
  · rw [hagg, List.map_cons, hval]
    rfl
  · rw [hagg]
    unfold applyFilters
    rw [show ([aggRow exC1 "A"].filter (textPred "")) = [aggRow exC1 "A"] from rfl]
    rw [show ([aggRow exC1 "A"].filter (qtyPred QtyFilter.noFilter))
        = [aggRow exC1 "A"] from rfl]
    simp [List.filter_cons, hrp]
  · rw [hagg]
    simp

/-- C1, amended: a row's raw internal rate is 0.0 — and the row is
excluded by every positive decrease-rate threshold — exactly when the
oldest-snapshot quantity is ≤ 0; when the oldest quantity is positive
(including 1..10, where the display still shows the sentinel) the raw
rate is the true value `(oldest − newest) / oldest × 100`, which can
satisfy the thresholds. -/
theorem C1_raw_rate_zero_floor (snaps : List (List CanonicalRow)) (r : AggRow)
    (hr : r ∈ aggregate snaps) :
    ((snapQty (snaps.head?.getD []) r.pname).getD 0 ≤ 0 →
      r.rateVal = 0 ∧ ∀ f : RateFilter, f ≠ RateFilter.noFilter → ratePred f r = false) ∧
    (0 < (snapQty (snaps.head?.getD []) r.pname).getD 0 →
      r.rateVal
        = ((((snapQty (snaps.head?.getD []) r.pname).getD 0 : ℚ)
            - ((snapQty (snaps.getLast?.getD []) r.pname).getD 0 : ℚ))
          / ((snapQty (snaps.head?.getD []) r.pname).getD 0 : ℚ)) * 100) := by
  obtain ⟨n, hn, rfl⟩ := mem_aggregate hr
  constructor
  · intro h
    have h' : (snapQty (snaps.head?.getD []) n).getD 0 ≤ 0 := h
    have hval : (aggRow snaps n).rateVal = 0 := by
      show (if (snapQty (snaps.head?.getD []) n).getD 0 ≤ 0 then (0:ℚ) else _) = 0
      rw [if_pos h']
    refine ⟨hval, ?_⟩
    intro f hf
    cases f with
    | noFilter => exact absurd rfl hf
    | ge10 => simp only [ratePred]; rw [hval]; norm_num
    | ge20 => simp only [ratePred]; rw [hval]; norm_num
    | ge30 => simp only [ratePred]; rw [hval]; norm_num
    | ge40 => simp only [ratePred]; rw [hval]; norm_num
    | ge50 => simp only [ratePred]; rw [hval]; norm_num
    | ge75 => simp only [ratePred]; rw [hval]; norm_num
  · intro h
    have h' : 0 < (snapQty (snaps.head?.getD []) n).getD 0 := h
    show (if (snapQty (snaps.head?.getD []) n).getD 0 ≤ 0 then (0:ℚ) else _) = _
    rw [if_neg (not_le.mpr h')]
    rfl

def exC1z : List (List CanonicalRow) := [[⟨"A", 0, "-"⟩], [⟨"A", 5, "-"⟩]]

theorem C1_raw_rate_zero_floor_witness :
    (aggRow exC1z "A").rateVal = 0 ∧
    ratePred RateFilter.ge10 (aggRow exC1z "A") = false := by
  have h := (C1_raw_rate_zero_floor exC1z (aggRow exC1z "A")
    (aggRow_mem_aggregate (by decide))).1 (by decide)
  exact ⟨h.1, h.2 RateFilter.ge10 (by decide)⟩

/-! ### Filter composition (claim C7) -/

/-- C7: the three filters compose with logical AND — applying the text,
bucket and rate predicates in any of the six orders over the same base
table yields the same rows as a single filter by the conjunction — and
the result is a sublist of the base table (filters never reorder rows). -/
theorem C7_filters_AND_order_independent (q : String) (f : QtyFilter) (d : RateFilter)
    (rows : List AggRow) :
    (applyFilters q f d rows
        = rows.filter (fun r => textPred q r && qtyPred f r && ratePred d r)) ∧
    applyFilters q f d rows
        = ((rows.filter (qtyPred f)).filter (textPred q)).filter (ratePred d) ∧
    applyFilters q f d rows
        = ((rows.filter (textPred q)).filter (ratePred d)).filter (qtyPred f) ∧
    applyFilters q f d rows
        = ((rows.filter (qtyPred f)).filter (ratePred d)).filter (textPred q) ∧
    applyFilters q f d rows
        = ((rows.filter (ratePred d)).filter (textPred q)).filter (qtyPred f) ∧
    applyFilters q f d rows
        = ((rows.filter (ratePred d)).filter (qtyPred f)).filter (textPred q) ∧
    (applyFilters q f d rows).Sublist rows := by
  unfold applyFilters
  refine ⟨?_, ?_, ?_, ?_, ?_, ?_, ?_⟩
  · simp only [List.filter_filter]
    exact List.filter_congr (fun a _ => by
      cases textPred q a <;> cases qtyPred f a <;> cases ratePred d a <;> rfl)
  · simp only [List.filter_filter]
    exact List.filter_congr (fun a _ => by
      cases textPred q a <;> cases qtyPred f a <;> cases ratePred d a <;> rfl)
  · simp only [List.filter_filter]
    exact List.filter_congr (fun a _ => by
      cases textPred q a <;> cases qtyPred f a <;> cases ratePred d a <;> rfl)
  · simp only [List.filter_filter]
    exact List.filter_congr (fun a _ => by
      cases textPred q a <;> cases qtyPred f a <;> cases ratePred d a <;> rfl)
  · simp only [List.filter_filter]
    exact List.filter_congr (fun a _ => by
      cases textPred q a <;> cases qtyPred f a <;> cases ratePred d a <;> rfl)
  · simp only [List.filter_filter]
    exact List.filter_congr (fun a _ => by
      cases textPred q a <;> cases qtyPred f a <;> cases ratePred d a <;> rfl)
  · exact ((List.filter_sublist _).trans (List.filter_sublist _)).trans
      (List.filter_sublist _)

/-! ### History dedup (claim C8) -/

theorem record_preserves_nodup (hist : List HistoryEntry) (e : HistoryEntry)
    (h : (hist.map (fun x => x.key)).Nodup) :
    ((record hist e).map (fun x => x.key)).Nodup := by
  unfold record
  cases ha : hist.any (fun x => x.key == e.key) with
  | true => simpa using h
  | false =>
    rw [if_neg (by simp)]
    have hnot : e.key ∉ hist.map (fun x => x.key) := by
      intro hmem
      rcases List.mem_map.mp hmem with ⟨x, hx, hxe⟩
      exact (List.any_eq_false.mp ha) x hx (beq_iff_eq.mpr hxe)
    rw [List.map_append, List.nodup_append]
    exact ⟨h, List.nodup_singleton _, fun a ha1 ha2 => by
      rw [List.mem_singleton.mp ha2] at ha1
      exact hnot ha1⟩

/-- C8: starting from an empty ledger, any sequence of recordings leaves
the history with pairwise-distinct identity keys (the ordered tuples of
snapshot origin names), because recording an entry whose key is already
present is a no-op and appends nothing. -/
theorem C8_history_no_duplicate_keys :
    (∀ es : List HistoryEntry, ((es.foldl record []).map (fun h => h.key)).Nodup) ∧
    (∀ (hist : List HistoryEntry) (e : HistoryEntry),
      (∃ h ∈ hist, h.key = e.key) → record hist e = hist) := by
  constructor
  · have aux : ∀ (es hist : List HistoryEntry),
        (hist.map (fun x => x.key)).Nodup →
        ((es.foldl record hist).map (fun x => x.key)).Nodup := by
      intro es
      induction es with
      | nil => exact fun hist h => h
      | cons e es ih => exact fun hist h => ih _ (record_preserves_nodup hist e h)
    intro es
    exact aux es [] (by simp)
  · rintro hist e ⟨h, hh, hk⟩
    unfold record
    have hb : (h.key == e.key) = true := by simp [hk]
    rw [if_pos (List.any_eq_true.mpr ⟨h, hh, hb⟩)]

def exHistEntry : HistoryEntry := ⟨["a.xlsx", "b.xlsx"], []⟩

def exHistEntry2 : HistoryEntry :=
  ⟨["a.xlsx", "b.xlsx"], [⟨"P", "-", [1, 2], false, 1, none, 0⟩]⟩

theorem C8_history_no_duplicate_keys_witness :
    record [exHistEntry] exHistEntry2 = [exHistEntry] :=
  C8_history_no_duplicate_keys.2 [exHistEntry] exHistEntry2
    ⟨exHistEntry, List.mem_singleton.mpr rfl, rfl⟩

end InventoryApp
